import Mathlib

set_option synthInstance.maxSize 1000

deriving instance DecidableEq for Except

/-!
Verification of the SCF-log scanning utilities, the monotonicity helper and the
cost lookup of this repository.  Numbers are modelled by rationals (`Rat`): the
numeric tokens appearing in the scanned logs and in the claims are plain signed
decimal literals, on which the rational semantics agrees with the floating-point arithmetic of the program.  Streams are modelled as lists of lines; the mutable
read cursor of a stream is modelled by returning the unread suffix of the list.
-/

/-- Python `str.strip()` on the characters of a line: drop leading and trailing
whitespace. -/
def pystrip (s : String) : String :=
  String.mk (((s.data.dropWhile Char.isWhitespace).reverse.dropWhile Char.isWhitespace).reverse)

/-- Python `str.startswith(pre)`. -/
def pystartswith (s pre : String) : Bool :=
  pre.data.isPrefixOf s.data

/-- Python `str.split()` with no separator: split on runs of whitespace,
discarding empty words. -/
def pysplit (s : String) : List String :=
  ((s.data.splitOnP Char.isWhitespace).map String.mk).filter (fun w => w != "")

/-- Value of a list of decimal digit characters. -/
def digitsVal (cs : List Char) : Nat :=
  cs.foldl (fun n c => 10 * n + (c.toNat - 48)) 0

/-- Exact-rational model of the numeric subtraction `a - b`. -/
def ratSub (a b : Rat) : Rat := mkRat (a.num * b.den - b.num * a.den) (a.den * b.den)

/-- Exact-rational model of the numeric addition `a + b`. -/
def ratAdd (a b : Rat) : Rat := mkRat (a.num * b.den + b.num * a.den) (a.den * b.den)

/-- Exact-rational model of the numeric multiplication `a * b`. -/
def ratMul (a b : Rat) : Rat := mkRat (a.num * b.num) (a.den * b.den)

/-- Exact-rational model of Python `abs`. -/
def ratAbs (q : Rat) : Rat := if q.num < 0 then -q else q

/-- Exact-rational model of Python `sum` over a list of numbers. -/
def ratSum (l : List Rat) : Rat := l.foldl ratAdd (mkRat 0 1)

/-- Unsigned decimal literal: digits, optionally followed by a dot and more
digits; at least one digit overall. -/
def parseUnsigned (cs : List Char) : Option Rat :=
  match cs.dropWhile Char.isDigit with
  | [] => if cs = [] then none else some (mkRat (digitsVal cs) 1)
  | '.' :: frac =>
    if frac.all Char.isDigit ∧ (cs.takeWhile Char.isDigit ≠ [] ∨ frac ≠ []) then
      some (mkRat (digitsVal (cs.takeWhile Char.isDigit) * 10 ^ frac.length + digitsVal frac)
        (10 ^ frac.length))
    else none
  | _ => none

/-- Modelled from the spec: Python `float(token)` conversion (a Python builtin,
not part of src/), restricted to the plain signed decimal literals that occur
as numeric tokens in the SCF log data lines of the examples of the spec; any other
token signals a `ValueError`, as `float` does. -/
def parseFloat (s : String) : Option Rat :=
  match s.data with
  | '-' :: rest => (parseUnsigned rest).map (fun q => -q)
  | '+' :: rest => parseUnsigned rest
  | cs => parseUnsigned cs

/-- Python `map(float, tokens)` (eager, left to right): the first token that is
not a float literal raises `ValueError`. -/
def parseFloats : List String → Except String (List Rat)
  | [] => .ok []
  | t :: ts =>
    match parseFloat t with
    | none => .error ("ValueError: could not convert string to float: " ++ t)
    | some v => (parseFloats ts).map (fun vs => v :: vs)

/-- The ordered column table built by the scanner: an ordered association list
from column name to the list of parsed values, mirroring the
`collections.OrderedDict` of `_magic_parser`. -/
abbrev Table := List (String × List Rat)

/-- The table `OrderedDict((k, []) for k in keys)`: one empty column per key,
in header order; a duplicate key keeps its first position (as in
`OrderedDict`). -/
def mkFields (keys : List String) : Table :=
  keys.foldl (fun acc k => if acc.any (fun kv => kv.1 == k) then acc else acc ++ [(k, [])]) []

/-- The loop `for l, v in zip(fields.values(), tokens): l.append(v)`:
append one parsed value to each column, truncating at the shorter list exactly
as `zip` does. -/
def appendRow : Table → List Rat → Table
  | kv :: t, v :: vs => (kv.1, kv.2 ++ [v]) :: appendRow t vs
  | t, [] => t
  | [], _ :: _ => []

/-- The loop body of `_magic_parser` (abiinspect.py): `in_doc` is the line
counter started when the marker is found, the option carries the current
`(keys, fields)` pair (`none` while no marker line has been seen).  The second
component of a successful result is the unread suffix of the stream (the
stream cursor). -/
def magicScanAux (magic : String) :
    Nat → Option (List String × Table) → List String →
    Except String (Option (List String × Table) × List String)
  | _, fields, [] => .ok (fields, [])
  | in_doc, fields, rawline :: rest =>
    match (if pystartswith (pystrip rawline) magic then
             some (pysplit (pystrip rawline), mkFields (pysplit (pystrip rawline)))
           else fields) with
    | none => magicScanAux magic in_doc none rest
    | some (keys, tbl) =>
      if in_doc + 1 = 1 then
        magicScanAux magic (in_doc + 1) (some (keys, tbl)) rest
      else if pystrip rawline = "" then
        .ok (some (keys, tbl), rest)
      else
        match parseFloats ((pysplit (pystrip rawline)).drop 1) with
        | .error e => .error e
        | .ok tokens =>
          if tokens.length = keys.length then
            magicScanAux magic (in_doc + 1) (some (keys, appendRow tbl tokens)) rest
          else .error "AssertionError: len(tokens) == len(keys)"

/-- The function `_magic_parser(stream, magic)` of abiinspect.py (renamed):
`.ok (none, rest)` models the `None` return, `.ok (some (keys, tbl), rest)`
the returned `OrderedDict` (with the header keys kept alongside), and
`.error` a raised `ValueError`/`AssertionError`. -/
def magicScan (magic : String) (stream : List String) :
    Except String (Option (List String × Table) × List String) :=
  magicScanAux magic 0 none stream

/-- The SCF cycle record (class `ScfCycle` of abiinspect.py): the column table
after the `iter` column has been removed, with the derived iteration count. -/
structure ScfCycle where
  fields : Table
  num_iterations : Nat
deriving DecidableEq, Repr

/-- The constructor `ScfCycle.__init__`: `num_iterations` is the length of the
first column (`all_lens[0]`, an `IndexError` on an empty table), and all other
columns are asserted to have the same length. -/
def ScfCycle.init (fields : Table) : Except String ScfCycle :=
  match fields with
  | [] => .error "IndexError: list index out of range"
  | (k, v) :: rest =>
    if rest.all (fun kv => kv.2.length = v.length) then .ok ⟨(k, v) :: rest, v.length⟩
    else .error "AssertionError: all(n == self.num_iterations for n in all_lens)"

/-- The call `fields.pop(k)` on an `OrderedDict`: remove the entry with the
given key, `none` (a `KeyError`) if the key is absent. -/
def popKey : Table → String → Option Table
  | [], _ => none
  | kv :: t, k => if kv.1 = k then some t else (popKey t k).map (fun t1 => kv :: t1)

/-- The marker `GroundStateScfCycle.MAGIC` of abiinspect.py. -/
def GS_MAGIC : String := "iter   Etot(hartree)"

/-- The classmethod `ScfCycle.from_stream` at the `GroundStateScfCycle`
variant: scan for the magic section, return `none` when the scanner found no
section or an empty table (Python truthiness of `if fields:`), otherwise pop
the `iter` column and build the record.  The unread stream suffix is returned
alongside. -/
def gsFromStream (stream : List String) : Except String (Option ScfCycle × List String) :=
  match magicScan GS_MAGIC stream with
  | .error e => .error e
  | .ok (none, rest) => .ok (none, rest)
  | .ok (some (_, tbl), rest) =>
    if tbl = [] then .ok (none, rest)
    else
      match popKey tbl "iter" with
      | none => .error "KeyError: iter"
      | some tbl1 =>
        match ScfCycle.init tbl1 with
        | .error e => .error e
        | .ok c => .ok (some c, rest)

lemma magicScanAux_rest_le (magic : String) :
    ∀ (l : List String) (n : Nat) (f r : Option (List String × Table)) (rest : List String),
      magicScanAux magic n f l = .ok (r, rest) → rest.length ≤ l.length := by
  intro l
  induction l with
  | nil =>
    intro n f r rest h
    simp only [magicScanAux, Except.ok.injEq, Prod.mk.injEq] at h
    simp [← h.2]
  | cons hd tl ih =>
    intro n f r rest h
    simp only [magicScanAux] at h
    split at h
    · exact Nat.le_succ_of_le (ih _ _ _ _ h)
    · split at h
      · exact Nat.le_succ_of_le (ih _ _ _ _ h)
      · split at h
        · simp only [Except.ok.injEq, Prod.mk.injEq] at h
          simp [← h.2, Nat.le_succ]
        · split at h
          · exact absurd h (by simp)
          · split at h
            · exact Nat.le_succ_of_le (ih _ _ _ _ h)
            · exact absurd h (by simp)

lemma magicScan_some_lt (magic : String) :
    ∀ (l : List String) (x : List String × Table) (rest : List String),
      magicScanAux magic 0 none l = .ok (some x, rest) → rest.length < l.length := by
  intro l
  induction l with
  | nil =>
    intro x rest h
    simp [magicScanAux] at h
  | cons hd tl ih =>
    intro x rest h
    simp only [magicScanAux] at h
    split at h
    · exact Nat.lt_succ_of_lt (ih _ _ h)
    · simp only [if_true] at h
      exact Nat.lt_succ_of_le (magicScanAux_rest_le magic tl _ _ _ _ h)

lemma gsFromStream_consumes {s : List String} {c : ScfCycle} {rest : List String}
    (h : gsFromStream s = .ok (some c, rest)) : rest.length < s.length := by
  unfold gsFromStream at h
  split at h
  · exact absurd h (by simp)
  · exact absurd h (by simp)
  · rename_i keys tbl r hm
    have hres : rest = r := by
      split at h
      · exact absurd h (by simp)
      · split at h
        · exact absurd h (by simp)
        · split at h
          · exact absurd h (by simp)
          · simp only [Except.ok.injEq, Prod.mk.injEq] at h
            exact h.2.symm
    rw [hres]
    exact magicScan_some_lt GS_MAGIC s (keys, tbl) r hm

/-- The loop of `Relaxation.from_stream`: repeatedly read Ground-State SCF
cycles from the stream until the scanner reports no further section, collecting
the cycles in encounter order.  A raised error propagates. -/
def relaxCollect (stream : List String) : Except String (List ScfCycle) :=
  match h : gsFromStream stream with
  | .error e => .error e
  | .ok (none, _) => .ok []
  | .ok (some c, rest) =>
    match relaxCollect rest with
    | .error e => .error e
    | .ok cs => .ok (c :: cs)
termination_by stream.length
decreasing_by exact gsFromStream_consumes h

/-- The classmethod `Relaxation.from_stream`: `cls(cycles) if cycles else None`,
modelled as the collected list of cycles, `none` when no cycle was found. -/
def relaxFromStream (stream : List String) : Except String (Option (List ScfCycle)) :=
  match relaxCollect stream with
  | .error e => .error e
  | .ok cycles => .ok (if cycles = [] then none else some cycles)

/-- The property `ScfCycle.last_iteration`: `{k: v[-1] for k, v in self.items()}`.
`none` models the `IndexError` raised by `v[-1]` on an empty column. -/
def last_iteration (c : ScfCycle) : Option (List (String × Rat)) :=
  c.fields.mapM (fun kv => (kv.2.getLast?).map (fun v => (kv.1, v)))

/-- The property `GroundStateScfCycle.last_etotal`:
`self["Etot(hartree)"][-1]` (`none` models `KeyError`/`IndexError`). -/
def last_etotal (c : ScfCycle) : Option Rat :=
  (List.lookup "Etot(hartree)" c.fields).bind List.getLast?

/-- The statement `history[k].append(v)` on a `defaultdict(list)`: append to
the existing entry, or create a new singleton entry at the end. -/
def histUpd : List (String × List Rat) → String → Rat → List (String × List Rat)
  | [], k, v => [(k, [v])]
  | (k0, l0) :: t, k, v =>
    if k0 = k then (k0, l0 ++ [v]) :: t else (k0, l0) :: histUpd t k v

/-- The filling loop of `Relaxation.history`: walk the cycles in order,
appending the last-iteration values of each cycle to the per-quantity lists.  The
boolean records whether an `IndexError` was raised partway (in which case the
returned history holds the data of the cycles already processed, exactly as the
mutated `self._history` does). -/
def computeHistoryAux : List (String × List Rat) → List ScfCycle →
    List (String × List Rat) × Bool
  | h, [] => (h, false)
  | h, c :: cs =>
    match last_iteration c with
    | none => (h, true)
    | some d => computeHistoryAux (d.foldl (fun acc kv => histUpd acc kv.1 kv.2) h) cs

/-- The history mapping built by `Relaxation.history` from an empty
`defaultdict(list)`. -/
def computeHistory (cycles : List ScfCycle) : List (String × List Rat) :=
  (computeHistoryAux [] cycles).1

/-- The class `Relaxation` of abiinspect.py: the owned list of Ground-State
cycles, plus the `self._history` attribute that memoises the `history`
property (`none` models a not-yet-set attribute). -/
structure Relaxation where
  cycles : List ScfCycle
  hcache : Option (List (String × List Rat)) := none
deriving DecidableEq, Repr

/-- The property `Relaxation.history`: return the cached `self._history` when
the attribute is set, otherwise compute it, store it, and return it.  The
first component is the returned value (`none` models a raised `IndexError`;
as in the source, the attribute is set before the filling loop runs, so it is
set even then). -/
def Relaxation.history (r : Relaxation) : Option (List (String × List Rat)) × Relaxation :=
  match r.hcache with
  | some h => (some h, r)
  | none =>
    ((if (computeHistoryAux [] r.cycles).2 then none else some (computeHistoryAux [] r.cycles).1),
     { r with hcache := some (computeHistoryAux [] r.cycles).1 })

/-- The values stored under a quantity name in one last-iteration mapping. -/
def valsIn (d : List (String × Rat)) (q : String) : List Rat :=
  d.filterMap (fun kv => if kv.1 = q then some kv.2 else none)

/-- The ordered sequence of the last-iteration values of one quantity across a list of
cycles, in original cycle order. -/
def lastValsOf (cycles : List ScfCycle) (q : String) : List Rat :=
  cycles.flatMap (fun c => valsIn ((last_iteration c).getD []) q)

/-- The inner loop of `monotonic` for `mode == ">"` (an increasing sequence):
scan adjacent pairs, returning `False` when a pair is more than `atol` apart
yet not increasing. -/
def monoCheckGT : List Rat → Rat → Bool
  | x :: y :: rest, atol =>
    if atol < ratAbs (ratSub y x) ∧ y ≤ x then false else monoCheckGT (y :: rest) atol
  | _, _ => true

/-- The inner loop of `monotonic` for `mode == "<"` (a decreasing sequence). -/
def monoCheckLT : List Rat → Rat → Bool
  | x :: y :: rest, atol =>
    if atol < ratAbs (ratSub y x) ∧ x ≤ y then false else monoCheckLT (y :: rest) atol
  | _, _ => true

/-- The function `monotonic(values, mode="<", atol=1.e-8)` of num_utils.py.
A `.error` models the raised `ValueError` for an unrecognized mode. -/
def monotonic (values : List Rat) (mode : String) (atol : Rat := mkRat 1 100000000) :
    Except String Bool :=
  if values.length = 1 then .ok true
  else if mode = ">" then .ok (monoCheckGT values atol)
  else if mode = "<" then .ok (monoCheckLT values atol)
  else .error ("Wrong mode " ++ mode)

namespace Pymatgen

/-- The composition value object consumed by `CostDB.get_cost` (cost.py): only
`.reduced_formula`, `.elements` (symbols) and `.num_atoms` are consulted. -/
structure Composition where
  reduced_formula : String
  elements : List String
  num_atoms : Rat
deriving DecidableEq, Repr

/-- Fuel-driven walk over the characters of a chemical formula: an uppercase
letter followed by lowercase letters is an element symbol, followed by an
optional count (default 1).  The fuel is instantiated to the character count,
which each step strictly exceeds the characters it leaves. -/
def parseFormulaFuel : Nat → List Char → List (String × Nat)
  | 0, _ => []
  | _ + 1, [] => []
  | fuel + 1, c :: rest =>
    if c.isUpper then
      (String.mk (c :: rest.takeWhile Char.isLower),
        if (rest.dropWhile Char.isLower).takeWhile Char.isDigit = [] then 1
        else digitsVal ((rest.dropWhile Char.isLower).takeWhile Char.isDigit))
        :: parseFormulaFuel fuel ((rest.dropWhile Char.isLower).dropWhile Char.isDigit)
    else parseFormulaFuel fuel rest

/-- Modelled from the spec: `Composition.from_formula` (pymatgen core, not
under src/) builds the composition value object for a formula string.  The
formulas used here are already reduced (glossary: a reduced formula is the
formula normalized to simplest ratios), so the reduced formula is the input
string; elements and the atom count are read off the formula. -/
def Composition.from_formula (s : String) : Composition :=
  { reduced_formula := s,
    elements := (parseFormulaFuel s.data.length s.data).map (fun p => p.1),
    num_atoms := mkRat (((parseFormulaFuel s.data.length s.data).map (fun p => p.2)).sum) 1 }

/-- The `CostEntry` of cost.py, reduced to the only attribute `get_cost`
reads from a decomposition key: its energy. -/
structure CostEntry where
  energy : Rat
deriving DecidableEq, Repr

/-- The state of the `CostDB` singleton after loading: `_comp_energies` maps a
reduced formula to its minimal per-atom energy, `_chemsys_entries` maps a
sorted dash-joined chemical system to its entries. -/
structure CostDB where
  comp_energies : List (String × Rat)
  chemsys_entries : String → List CostEntry

/-- The `entries_list` loop of `get_cost`: for every non-empty combination of
the element symbols of the composition, look up the entries of the sorted
dash-joined chemical system. -/
def entriesList (db : CostDB) (elements : List String) : List CostEntry :=
  ((List.range elements.length).flatMap (fun i => List.sublistsLen (i + 1) elements)).flatMap
    (fun combi =>
      db.chemsys_entries (String.intercalate "-" (combi.mergeSort (fun a b => a ≤ b))))

/-- The method `CostDB.get_cost(composition)` of cost.py.  The phase-diagram
analysis (`PhaseDiagram`/`PDAnalyzer.get_decomposition`, delegated by the
source to an external convex-hull library) is passed in as the oracle
`get_decomposition`, mapping the entry list and the queried composition to
decomposition pairs `(entry, amount)`.  Note the source queries the
decomposition of the fixed `Composition.from_formula` applied to the literal formula string LiFeO2. -/
def get_cost (db : CostDB)
    (get_decomposition : List CostEntry → Composition → List (CostEntry × Rat))
    (composition : Composition) : Rat :=
  match List.lookup composition.reduced_formula db.comp_energies with
  | some epa => ratMul epa composition.num_atoms
  | none =>
    ratSum ((get_decomposition (entriesList db composition.elements)
        (Composition.from_formula "LiFeO2")).map
      (fun kv => ratMul (ratMul kv.1.energy kv.2) composition.num_atoms))

/-- A decomposition oracle that answers differently for the fixed `LiFeO2`
query and for any other composition, exposing which composition `get_cost`
decomposes. -/
def demoDecomp (_ : List CostEntry) (target : Composition) : List (CostEntry × Rat) :=
  if target.reduced_formula = "LiFeO2" then [(⟨3⟩, 1)] else [(⟨7⟩, 1)]

/-- A cost database with no precomputed formula, forcing the phase-diagram
fallback of `get_cost`. -/
def demoDb : CostDB := ⟨[], fun _ => []⟩

/-- The input composition of the failing run: CaTiO3, five atoms, not
precomputed in `demoDb`. -/
def caTiO3 : Composition := Composition.from_formula "CaTiO3"

end Pymatgen

/-- A three-line stream for the scanner: the Ground-State header, one data
line, and the blank terminator. -/
def c1Stream : List String :=
  ["iter   Etot(hartree)   deltaE(h)", "ETOT 1 -8.86 -0.10", ""]

/-- The table the scanner extracts from `c1Stream`: the single data line after
the header has contributed one value to every column. -/
def c1Table : Table :=
  [("iter", [mkRat 1 1]), ("Etot(hartree)", [mkRat (-443) 50]), ("deltaE(h)", [mkRat (-1) 10])]

/-- C1, counterexample.  The claim says the immediate next line after the
detected header is discarded and never appears in the returned Column Table.
On `c1Stream` the line immediately after the header is the only data line, and
its values do appear in the returned table (the discarded `in_doc == 1`
iteration is the header line itself): the claim is false. -/
theorem C1_counterexample :
    magicScan "iter   Etot(hartree)" c1Stream
      = .ok (some (["iter", "Etot(hartree)", "deltaE(h)"], c1Table), []) ∧
    List.lookup "Etot(hartree)" c1Table = some [mkRat (-443) 50] := by
  decide

/-- The stream of the example in section 8 of the spec, exactly as the claim gives it: the
header and two data lines carrying only an iteration index plus two numeric
tokens each. -/
def c2Stream : List String :=
  ["iter   Etot(hartree)   deltaE(h)", "1  -8.86  -0.10", "2  -8.90  -0.04", ""]

/-- C2, counterexample.  On the exact stream of the claim, parsing does not
succeed: the first data line yields 2 numeric tokens after dropping its first
token, while the header has 3 columns, so the token-count assertion of the scanner
fires instead of producing a record. -/
theorem C2_counterexample :
    gsFromStream c2Stream = .error "AssertionError: len(tokens) == len(keys)" := by
  decide

/-- The §8 example stream amended so that each data line carries a leading row
label (`ETOT`, as in the real log format shown in the comment in the source) before
the iteration index: token counts then match the header. -/
def c2StreamAmended : List String :=
  ["iter   Etot(hartree)   deltaE(h)", "ETOT 1  -8.86  -0.10", "ETOT 2  -8.90  -0.04", ""]

/-- The record produced from `c2StreamAmended` (after the `iter` column is
popped). -/
def c2Cycle : ScfCycle :=
  ⟨[("Etot(hartree)", [mkRat (-443) 50, mkRat (-89) 10]),
    ("deltaE(h)", [mkRat (-1) 10, mkRat (-1) 25])], 2⟩

/-- C2, amended.  With a row label on each data line, parsing the stream as a
Ground-State SCF cycle succeeds and yields a record with `num_iterations == 2`,
`record["Etot(hartree)"] == [-8.86, -8.90]`,
`last_iteration == {"Etot(hartree)": -8.90, "deltaE(h)": -0.04}` and
`last_etotal == -8.90`. -/
theorem C2_amended_example :
    gsFromStream c2StreamAmended = .ok (some c2Cycle, []) ∧
    c2Cycle.num_iterations = 2 ∧
    List.lookup "Etot(hartree)" c2Cycle.fields = some [mkRat (-443) 50, mkRat (-89) 10] ∧
    last_iteration c2Cycle
      = some [("Etot(hartree)", mkRat (-89) 10), ("deltaE(h)", mkRat (-1) 25)] ∧
    last_etotal c2Cycle = some (mkRat (-89) 10) := by
  decide

open Pymatgen in
/-- C3.  Evaluating `get_cost` at the failing input CaTiO3 (five atoms, no
precomputed cost, oracle `demoDecomp` answering 3 per unit for the fixed
target LiFeO2 and 7 per unit for anything else): the code returns 15 — the
cost obtained from the decomposition of the hardcoded
`Composition.from_formula` applied to the literal formula string LiFeO2 — and not 35, the cost the claim
describes, obtained from the lowest-energy decomposition of the input
composition itself. -/
theorem C3_decomposition_target_hardcoded :
    get_cost demoDb demoDecomp caTiO3 = mkRat 15 1 ∧
    ratSum ((demoDecomp (entriesList demoDb caTiO3.elements) caTiO3).map
      (fun kv => ratMul (ratMul kv.1.energy kv.2) caTiO3.num_atoms)) = mkRat 35 1 ∧
    (mkRat 15 1 : Rat) ≠ mkRat 35 1 := by
  refine ⟨by decide, by decide, by decide⟩

/-- C9.  On the values `[1.2, 1.3, 1.4]`, `monotonic` with mode `"<"`
(decreasing) returns `False` and with mode `">"` (increasing) returns `True`;
omitting `atol` is the same as passing the default `1e-8`. -/
theorem C9_monotonic_example :
    monotonic [mkRat 12 10, mkRat 13 10, mkRat 14 10] "<" = .ok false ∧
    monotonic [mkRat 12 10, mkRat 13 10, mkRat 14 10] ">" = .ok true ∧
    monotonic [mkRat 12 10, mkRat 13 10, mkRat 14 10] "<"
      = monotonic [mkRat 12 10, mkRat 13 10, mkRat 14 10] "<" (mkRat 1 100000000) := by
  refine ⟨by decide, by decide, rfl⟩

/-- C10.  A single-element list makes `monotonic` return `True` for every mode
string and tolerance, without reaching the mode dispatch; consequently the
`ValueError` for an unrecognized mode can only be raised when the length of the list is not 1. -/
theorem C10_single_element :
    (∀ (v : Rat) (m : String) (atol : Rat), monotonic [v] m atol = .ok true)
    ∧ (∀ (values : List Rat) (m : String) (atol : Rat) (e : String),
        monotonic values m atol = .error e → values.length ≠ 1) := by
  constructor
  · intro v m atol
    simp [monotonic]
  · intro values m atol e herr hlen
    simp [monotonic, hlen] at herr

/-- C1, amended.  Once the scanner detects a header line containing the
marker, the line consumed and discarded by the `in_doc == 1` skip is that
header line itself, and the immediate next line of the stream is parsed as the
first data line: its values are appended to the columns of the table
(`appendRow`), so they do appear in the returned Column Table. -/
theorem C1_header_line_is_skipped
    (magic hline dline : String) (rest : List String) (ts : List Rat)
    (h1 : pystartswith (pystrip hline) magic = true)
    (h2 : pystartswith (pystrip dline) magic = false)
    (h3 : pystrip dline ≠ "")
    (h4 : parseFloats ((pysplit (pystrip dline)).drop 1) = .ok ts)
    (h5 : ts.length = (pysplit (pystrip hline)).length) :
    magicScanAux magic 0 none (hline :: dline :: rest)
      = magicScanAux magic 2
          (some (pysplit (pystrip hline),
                 appendRow (mkFields (pysplit (pystrip hline))) ts)) rest := by
  rw [magicScanAux, h1]
  simp only [if_true]
  rw [magicScanAux, h2]
  simp only [if_false, if_neg h3, h4, h5, if_true]
  norm_num

/-- Witness for the amended statement of C1: a concrete header and one concrete
data line, whose two parsed values end up appended to the two columns. -/
theorem C1_header_line_is_skipped_witness :
    magicScanAux "iter" 0 none ["iter a", "x 1.5 2.5", "tail"]
      = magicScanAux "iter" 2
          (some (["iter", "a"], appendRow (mkFields ["iter", "a"]) [mkRat 3 2, mkRat 5 2]))
          ["tail"] := by
  have h := C1_header_line_is_skipped "iter" "iter a" "x 1.5 2.5" ["tail"]
    [mkRat 3 2, mkRat 5 2] (by decide) (by decide) (by decide) (by decide) (by decide)
  simpa using h

/-- C4.  Inside a detected section (a state where the column keys are fixed
and at least the header line has been counted), a non-terminating data line
that does not itself match the marker, whose tokens after the dropped row
label all parse as numbers but whose numeric-token count differs from the
number of header columns, makes the scanner fail with the assertion error: no
table, partial or otherwise, is returned. -/
theorem C4_token_count_mismatch_fails
    (magic : String) (keys : List String) (tbl : Table) (n : Nat)
    (line : String) (rest : List String) (ts : List Rat)
    (hn : 1 ≤ n)
    (hm : pystartswith (pystrip line) magic = false)
    (hne : pystrip line ≠ "")
    (hp : parseFloats ((pysplit (pystrip line)).drop 1) = .ok ts)
    (hlen : ts.length ≠ keys.length) :
    magicScanAux magic n (some (keys, tbl)) (line :: rest)
      = .error "AssertionError: len(tokens) == len(keys)" := by
  have hn1 : ¬ (n + 1 = 1) := by omega
  simp only [magicScanAux, hm, Bool.false_eq_true, if_false, if_neg hn1, if_neg hne, hp,
    if_neg hlen]

/-- Witness for C4: in a section whose header had the two columns `iter` and
`Etot(hartree)`, the data line `"1 -8.86"` carries one fewer numeric token
than the header has columns, and the scanner errors out. -/
theorem C4_token_count_mismatch_fails_witness :
    magicScanAux "iter" 1 (some (["iter", "Etot(hartree)"],
        [("iter", []), ("Etot(hartree)", [])])) ["1 -8.86", ""]
      = .error "AssertionError: len(tokens) == len(keys)" :=
  C4_token_count_mismatch_fails "iter" ["iter", "Etot(hartree)"]
    [("iter", []), ("Etot(hartree)", [])] 1 "1 -8.86" [""] [mkRat (-443) 50]
    (by decide) (by decide) (by decide) (by decide) (by decide)

/-- C5.  On a stream none of whose stripped lines starts with the marker — in
particular on any stream that contains no occurrence of the marker at all, and
on the empty stream — the scanner returns absent (`none`, not an error) and
consumes the stream to its end (no unread suffix remains). -/
theorem C5_no_magic_returns_absent
    (magic : String) (stream : List String)
    (h : ∀ line ∈ stream, pystartswith (pystrip line) magic = false) :
    magicScan magic stream = .ok (none, []) := by
  unfold magicScan
  induction stream with
  | nil => rfl
  | cons hd tl ih =>
    rw [magicScanAux, h hd (by simp)]
    simp only [if_false]
    exact ih (fun l hl => h l (by simp [hl]))

/-- Witness for C5: a stream with no marker occurrence, and the empty stream,
both scanned for the Ground-State marker. -/
theorem C5_no_magic_returns_absent_witness :
    magicScan GS_MAGIC ["no magic here", "", "1 2 3"] = .ok (none, []) ∧
    magicScan GS_MAGIC [] = .ok (none, []) :=
  ⟨C5_no_magic_returns_absent GS_MAGIC ["no magic here", "", "1 2 3"] (by decide),
   C5_no_magic_returns_absent GS_MAGIC [] (by decide)⟩

/-- C6.  A successfully constructed SCF cycle record has
`len(columns[k]) == num_iterations` for every column, and construction from a
table with two columns of unequal length fails with the consistency assertion
instead of producing a record. -/
theorem C6_column_length_invariant :
    (∀ (t : Table) (c : ScfCycle), ScfCycle.init t = .ok c →
        ∀ kv ∈ c.fields, kv.2.length = c.num_iterations)
    ∧ (∀ (t : Table) (kv1 kv2 : String × List Rat), kv1 ∈ t → kv2 ∈ t →
        kv1.2.length ≠ kv2.2.length → ∃ e, ScfCycle.init t = .error e) := by
  constructor
  · intro t c hc kv hkv
    match t, hc with
    | (k, v) :: rest, hc =>
      rw [ScfCycle.init] at hc
      by_cases hall : rest.all (fun kv => kv.2.length = v.length)
      · rw [if_pos hall] at hc
        cases hc
        rcases List.mem_cons.mp hkv with h | h
        · simp [h]
        · simpa using (List.all_eq_true.mp hall) _ h
      · rw [if_neg hall] at hc
        exact absurd hc (by simp)
  · intro t kv1 kv2 h1 h2 hne
    match t with
    | [] => cases h1
    | (k, v) :: rest =>
      rw [ScfCycle.init]
      by_cases hall : rest.all (fun kv => kv.2.length = v.length)
      · exfalso
        have hlen : ∀ kv ∈ (k, v) :: rest, kv.2.length = v.length := by
          intro kv hkv
          rcases List.mem_cons.mp hkv with h | h
          · simp [h]
          · simpa using (List.all_eq_true.mp hall) _ h
        exact hne ((hlen kv1 h1).trans (hlen kv2 h2).symm)
      · rw [if_neg hall]
        exact ⟨_, rfl⟩

/-- Witness for C6: a well-formed one-column table whose column length equals
the recorded iteration count, and a two-column table with lengths 1 and 0 on
which construction errors out. -/
theorem C6_column_length_invariant_witness :
    (("a", [mkRat 1 1, mkRat 2 1]) : String × List Rat).2.length
        = (⟨[("a", [mkRat 1 1, mkRat 2 1])], 2⟩ : ScfCycle).num_iterations ∧
    ∃ e, ScfCycle.init [("a", [mkRat 1 1]), ("b", [])] = .error e :=
  ⟨C6_column_length_invariant.1 [("a", [mkRat 1 1, mkRat 2 1])]
      ⟨[("a", [mkRat 1 1, mkRat 2 1])], 2⟩ (by decide) ("a", [mkRat 1 1, mkRat 2 1]) (by decide),
   C6_column_length_invariant.2 [("a", [mkRat 1 1]), ("b", [])]
      ("a", [mkRat 1 1]) ("b", []) (by decide) (by decide) (by decide)⟩

lemma relaxCollect_none {s r : List String} (h : gsFromStream s = .ok (none, r)) :
    relaxCollect s = .ok [] := by
  rw [relaxCollect.eq_def]
  split
  · rename_i e he; rw [he] at h; exact absurd h (by simp)
  · rfl
  · rename_i c rest he; rw [he] at h; exact absurd h (by simp)

lemma relaxCollect_some {s rest : List String} {c : ScfCycle}
    (h : gsFromStream s = .ok (some c, rest)) :
    relaxCollect s = (relaxCollect rest).map (fun cs => c :: cs) := by
  rw [relaxCollect.eq_def]
  split
  · rename_i e he; rw [he] at h; exact absurd h (by simp)
  · rename_i r he; rw [he] at h; exact absurd h (by simp)
  · rename_i c1 rest1 he
    rw [he] at h
    simp only [Except.ok.injEq, Prod.mk.injEq, Option.some.injEq] at h
    obtain ⟨hc, hr⟩ := h
    subst hc; subst hr
    cases relaxCollect rest1 <;> simp [Except.map]

/-- C7.  `Relaxation.from_stream` repeatedly invokes the Ground-State
`from_stream` on the same stream: a scan returning absent ends the loop (and
with zero collected cycles the result is absent), a scan returning a cycle
prepends it, in encounter order, to whatever the remaining stream yields; the
result is absent exactly when the collected list is empty, so a present result
never holds an empty list of cycles. -/
theorem C7_relaxation_collects_until_absent :
    (∀ (s r : List String), gsFromStream s = .ok (none, r) → relaxFromStream s = .ok none)
    ∧ (∀ (s rest : List String) (c : ScfCycle), gsFromStream s = .ok (some c, rest) →
        relaxCollect s = (relaxCollect rest).map (fun cs => c :: cs))
    ∧ (∀ (s : List String) (cycles : List ScfCycle),
        relaxFromStream s = .ok (some cycles) → cycles ≠ [])
    ∧ (∀ s : List String, relaxFromStream s = .ok none ↔ relaxCollect s = .ok []) := by
  refine ⟨?_, ?_, ?_, ?_⟩
  · intro s r h
    rw [relaxFromStream, relaxCollect_none h]
    rfl
  · intro s rest c h
    exact relaxCollect_some h
  · intro s cycles h hnil
    rw [relaxFromStream] at h
    cases hc : relaxCollect s with
    | error e => rw [hc] at h; exact absurd h (by simp)
    | ok cs =>
      rw [hc] at h
      by_cases hcs : cs = []
      · simp [hcs] at h
      · simp only [if_neg hcs, Except.ok.injEq, Option.some.injEq] at h
        exact hcs (h ▸ hnil)
  · intro s
    constructor
    · intro h
      rw [relaxFromStream] at h
      cases hc : relaxCollect s with
      | error e => rw [hc] at h; exact absurd h (by simp)
      | ok cs =>
        rw [hc] at h
        by_cases hcs : cs = []
        · rw [hcs]
        · simp [if_neg hcs] at h
    · intro h
      rw [relaxFromStream, h]
      rfl

/-- A stream holding two consecutive Ground-State sections. -/
def relaxStream2 : List String :=
  ["iter   Etot(hartree)   deltaE(h)", "ETOT 1  -8.86  -0.10", "ETOT 2  -8.90  -0.04", "",
   "iter   Etot(hartree)   deltaE(h)", "ETOT 1  -7.50  -0.20", "ETOT 2  -7.60  -0.05", ""]

/-- The unread suffix of `relaxStream2` after its first section is scanned. -/
def relaxTail2 : List String :=
  ["iter   Etot(hartree)   deltaE(h)", "ETOT 1  -7.50  -0.20", "ETOT 2  -7.60  -0.05", ""]

/-- The record of the first section of `relaxStream2`. -/
def cycleA : ScfCycle :=
  ⟨[("Etot(hartree)", [mkRat (-443) 50, mkRat (-89) 10]),
    ("deltaE(h)", [mkRat (-1) 10, mkRat (-1) 25])], 2⟩

/-- The record of the second section of `relaxStream2`. -/
def cycleB : ScfCycle :=
  ⟨[("Etot(hartree)", [mkRat (-15) 2, mkRat (-38) 5]),
    ("deltaE(h)", [mkRat (-1) 5, mkRat (-1) 20])], 2⟩

lemma relaxStream2_eval : relaxFromStream relaxStream2 = .ok (some [cycleA, cycleB]) := by
  have h1 : gsFromStream relaxStream2 = .ok (some cycleA, relaxTail2) := by decide
  have h2 : gsFromStream relaxTail2 = .ok (some cycleB, []) := by decide
  have h3 : gsFromStream ([] : List String) = .ok (none, []) := by decide
  rw [relaxFromStream, relaxCollect_some h1, relaxCollect_some h2, relaxCollect_none h3]
  rfl

/-- Witness for C7 at concrete inputs: the empty stream gives an absent
relaxation, a stream opening with a section satisfies the one-step unfolding,
and the present two-cycle result is non-empty. -/
theorem C7_relaxation_collects_until_absent_witness :
    relaxFromStream [] = .ok none ∧
    relaxCollect relaxStream2 = (relaxCollect relaxTail2).map (fun cs => cycleA :: cs) ∧
    ([cycleA, cycleB] : List ScfCycle) ≠ [] :=
  ⟨C7_relaxation_collects_until_absent.1 [] [] (by decide),
   C7_relaxation_collects_until_absent.2.1 relaxStream2 relaxTail2 cycleA (by decide),
   C7_relaxation_collects_until_absent.2.2.1 relaxStream2 [cycleA, cycleB] relaxStream2_eval⟩

/-- Combination of an optional already-stored list with newly appended values:
`none` only when nothing was stored and nothing is appended. -/
def combineOpt (o : Option (List Rat)) (vs : List Rat) : Option (List Rat) :=
  if o = none ∧ vs = [] then none else some (o.getD [] ++ vs)

lemma combineOpt_nil (o : Option (List Rat)) : combineOpt o [] = o := by
  cases o <;> simp [combineOpt]

lemma combineOpt_append (o : Option (List Rat)) (vs ws : List Rat) :
    combineOpt (combineOpt o vs) ws = combineOpt o (vs ++ ws) := by
  cases o <;> by_cases hv : vs = [] <;> by_cases hw : ws = [] <;>
    simp [combineOpt, hv, hw]

lemma lookup_cons_same {β : Type} (k : String) (b : β) (t : List (String × β)) :
    List.lookup k ((k, b) :: t) = some b := by
  simp [List.lookup]

lemma lookup_cons_diff {β : Type} {q k : String} (h : q ≠ k) (b : β) (t : List (String × β)) :
    List.lookup q ((k, b) :: t) = List.lookup q t := by
  have hb : (q == k) = false := beq_eq_false_iff_ne.mpr h
  simp [List.lookup, hb]

lemma lookup_histUpd (h : List (String × List Rat)) (k : String) (v : Rat) (q : String) :
    List.lookup q (histUpd h k v)
      = if q = k then some (((List.lookup q h).getD []) ++ [v]) else List.lookup q h := by
  induction h with
  | nil =>
    by_cases hq : q = k
    · subst hq; simp [histUpd, lookup_cons_same, List.lookup]
    · have hb : (q == k) = false := beq_eq_false_iff_ne.mpr hq
      simp [histUpd, List.lookup, hb, hq]
  | cons kv t ih =>
    obtain ⟨k0, l0⟩ := kv
    by_cases hk : k0 = k
    · subst hk
      by_cases hq : q = k0
      · subst hq; simp [histUpd, lookup_cons_same]
      · simp [histUpd, lookup_cons_diff hq, hq]
    · by_cases hq : q = k0
      · subst hq
        simp [histUpd, hk, lookup_cons_same]
      · simp only [histUpd, if_neg hk, lookup_cons_diff hq, ih]

lemma lookup_histFold (d : List (String × Rat)) :
    ∀ (h : List (String × List Rat)) (q : String),
      List.lookup q (d.foldl (fun acc kv => histUpd acc kv.1 kv.2) h)
        = combineOpt (List.lookup q h) (valsIn d q) := by
  induction d with
  | nil =>
    intro h q
    simp [valsIn, combineOpt_nil]
  | cons kv t ih =>
    intro h q
    obtain ⟨k, v⟩ := kv
    rw [List.foldl_cons, ih, lookup_histUpd]
    by_cases hq : q = k
    · subst hq
      have hv : valsIn ((q, v) :: t) q = v :: valsIn t q := by simp [valsIn]
      rw [if_pos rfl, hv]
      have : (some ((List.lookup q h).getD [] ++ [v])) = combineOpt (List.lookup q h) [v] := by
        simp [combineOpt]
      rw [this, combineOpt_append]
      rfl
    · have hv : valsIn ((k, v) :: t) q = valsIn t q := by simp [valsIn, Ne.symm hq]
      rw [if_neg hq, hv]

lemma computeHistoryAux_lookup :
    ∀ (cycles : List ScfCycle) (h : List (String × List Rat)) (q : String),
      (∀ c ∈ cycles, (last_iteration c).isSome = true) →
      List.lookup q (computeHistoryAux h cycles).1
        = combineOpt (List.lookup q h) (lastValsOf cycles q) := by
  intro cycles
  induction cycles with
  | nil =>
    intro h q _
    simp [computeHistoryAux, lastValsOf, combineOpt_nil]
  | cons c cs ih =>
    intro h q hall
    have hc : (last_iteration c).isSome = true := hall c (by simp)
    obtain ⟨d, hd⟩ := Option.isSome_iff_exists.mp hc
    rw [computeHistoryAux, hd]
    rw [ih _ q (fun c1 hc1 => hall c1 (by simp [hc1]))]
    rw [lookup_histFold]
    rw [combineOpt_append]
    have : lastValsOf (c :: cs) q = valsIn d q ++ lastValsOf cs q := by
      simp [lastValsOf, hd]
    rw [this]

/-- C8.  For a relaxation whose cycles each possess a last-iteration mapping, the
history stores, under every quantity name seen in the last-iteration
mapping of some cycle, exactly the ordered sequence of the last-iteration values of that quantity
across the cycles in their original order; the history attribute is computed
on first access and later accesses return the cached value unchanged; and the
two consecutive Ground-State sections of `relaxStream2` yield a two-entry
history whose `"Etot(hartree)"` entry is the ordered pair formed by the last total energy of each of the two cycles. -/
theorem C8_history :
    (∀ (cycles : List ScfCycle) (q : String),
        (∀ c ∈ cycles, (last_iteration c).isSome = true) →
        lastValsOf cycles q ≠ [] →
        List.lookup q (computeHistory cycles) = some (lastValsOf cycles q))
    ∧ (∀ (r : Relaxation) (h : List (String × List Rat)) (r1 : Relaxation),
        Relaxation.history r = (some h, r1) → Relaxation.history r1 = (some h, r1))
    ∧ (relaxFromStream relaxStream2 = .ok (some [cycleA, cycleB]) ∧
       computeHistory [cycleA, cycleB]
         = [("Etot(hartree)", [mkRat (-89) 10, mkRat (-38) 5]),
            ("deltaE(h)", [mkRat (-1) 25, mkRat (-1) 20])]) := by
  refine ⟨?_, ?_, relaxStream2_eval, by decide⟩
  · intro cycles q hall hne
    rw [computeHistory, computeHistoryAux_lookup cycles [] q hall]
    simp [combineOpt, hne]
  · intro r h r1 hacc
    rw [Relaxation.history] at hacc
    cases hc : r.hcache with
    | some h0 =>
      rw [hc] at hacc
      simp only [Prod.mk.injEq, Option.some.injEq] at hacc
      obtain ⟨h1, h2⟩ := hacc
      subst h2
      simp [Relaxation.history, hc, h1]
    | none =>
      rw [hc] at hacc
      by_cases hb : (computeHistoryAux [] r.cycles).2 = true
      · rw [if_pos hb] at hacc
        simp only [Prod.mk.injEq] at hacc
        exact absurd hacc.1 (by simp)
      · rw [if_neg hb] at hacc
        simp only [Prod.mk.injEq, Option.some.injEq] at hacc
        obtain ⟨h1, h2⟩ := hacc
        subst h2
        simp [Relaxation.history, h1]

/-- Witness for C8 at concrete inputs: a one-cycle relaxation whose history
stores the single last-iteration value of `"a"`, and the empty relaxation,
whose first history access caches the empty mapping and whose second access
returns it unchanged. -/
theorem C8_history_witness :
    List.lookup "a" (computeHistory [⟨[("a", [mkRat 5 1])], 1⟩])
      = some (lastValsOf [⟨[("a", [mkRat 5 1])], 1⟩] "a") ∧
    Relaxation.history ⟨[], some []⟩ = (some [], ⟨[], some []⟩) :=
  ⟨C8_history.1 [⟨[("a", [mkRat 5 1])], 1⟩] "a" (by decide) (by decide),
   C8_history.2.1 ⟨[], none⟩ [] ⟨[], some []⟩ (by decide)⟩

/-- Witness for C10 at concrete inputs: the single-element list `[5]` with the
unrecognized mode `"weird"` returns `True`, and the two-element list on which
`"weird"` does raise indeed has length other than 1. -/
theorem C10_single_element_witness :
    monotonic [mkRat 5 1] "weird" (mkRat 1 1) = .ok true ∧
    ([mkRat 1 1, mkRat 2 1] : List Rat).length ≠ 1 :=
  ⟨C10_single_element.1 (mkRat 5 1) "weird" (mkRat 1 1),
   C10_single_element.2 [mkRat 1 1, mkRat 2 1] "weird" (mkRat 1 1) "Wrong mode weird"
     (by decide)⟩
